import Mathlib

/-!
Verification development for the lookup-table demonstration script
(`src/run.ts`).  The script builds 50 transfer instructions, creates an
address lookup table, extends it in batches of 15 addresses per
transaction, waits for activation, compiles a v0 (versioned) transaction
against the table, submits it and checks recipient balances.

The definitions below are a shallow embedding of that script:
the batching loop (`for (let i = 0; i < lookupAccounts.length; i += batch)`
with `lookupAccounts.slice(i, i + batch)`), the sequential
send-and-confirm trace of the extension loop, the activation wait,
serialized-size accounting for the legacy and v0 envelopes, and the
ledger-side effect of the transfer instructions.
-/

namespace LUTs

/-- JavaScript `Array.prototype.slice(start, end)` semantics on lists:
negative indices count from the end, indices are clamped to `[0, length]`,
and the elements with clamped index in `[start, end)` are returned.
This is the exact semantics of `lookupAccounts.slice(i, i + batch)` in
`src/run.ts` line 105. -/
def jsSlice {α : Type} (A : List α) (s e : Int) : List α :=
  let len : Int := A.length
  let start : Int := if s < 0 then max (len + s) 0 else min s len
  let stop : Int := if e < 0 then max (len + e) 0 else min e len
  (A.drop start.toNat).take (stop - start).toNat

/-- Fuel-indexed embedding of the extension batching loop of `src/run.ts`
lines 99-109: `for (let i = 0; i < lookupAccounts.length; i += batch)`
collecting `lookupAccounts.slice(i, i + batch)` at each iteration.
The loop index and the step are integers, as in JavaScript, so that a
zero or negative `batch` is representable.  `none` means the given fuel
was exhausted before the loop terminated; since each iteration consumes
one unit of fuel, a loop that returns `none` for every fuel amount never
terminates. -/
def batchLoopFuel {α : Type} (A : List α) (b : Int) : Nat → Int → Option (List (List α))
  | 0, _ => none
  | fuel + 1, i =>
    if i < (A.length : Int) then
      (batchLoopFuel A b fuel (i + b)).map (fun rest => jsSlice A i (i + b) :: rest)
    else
      some []

lemma batchLoopFuel_zero {α : Type} (A : List α) (b : Int) (i : Int) :
    batchLoopFuel A b 0 i = none := rfl

lemma batchLoopFuel_succ {α : Type} (A : List α) (b : Int) (fuel : Nat) (i : Int) :
    batchLoopFuel A b (fuel + 1) i =
      if i < (A.length : Int) then
        (batchLoopFuel A b fuel (i + b)).map (fun rest => jsSlice A i (i + b) :: rest)
      else
        some [] := rfl

/-- Structural (fuel on the list length) form of the batch plan: split the
list into consecutive chunks of `b` elements, last chunk possibly shorter.
`planBatches` below instantiates the fuel with the list length, which is
enough fuel whenever `1 ≤ b`; `batchLoopFuel_eq_planBatches` proves this
function is exactly what the source loop computes for `1 ≤ b`. -/
def planBatchesAux {α : Type} (b : Nat) : Nat → List α → List (List α)
  | 0, _ => []
  | _ + 1, [] => []
  | fuel + 1, a :: as => (a :: as).take b :: planBatchesAux b fuel ((a :: as).drop b)

lemma planBatchesAux_zero {α : Type} (b : Nat) (A : List α) :
    planBatchesAux b 0 A = [] := rfl

lemma planBatchesAux_nil {α : Type} (b : Nat) (fuel : Nat) :
    planBatchesAux b (fuel + 1) ([] : List α) = [] := rfl

lemma planBatchesAux_cons {α : Type} (b : Nat) (fuel : Nat) (a : α) (as : List α) :
    planBatchesAux b (fuel + 1) (a :: as)
      = (a :: as).take b :: planBatchesAux b fuel ((a :: as).drop b) := rfl

/-- The batch plan of the spec's `planBatches(addresses, maxChunkSize)`:
consecutive chunks of length `b`, in original order, last chunk possibly
shorter.  Realized in the source by the extension batching loop. -/
def planBatches {α : Type} (A : List α) (b : Nat) : List (List α) :=
  planBatchesAux b A.length A

lemma take_min_length {α : Type} (l : List α) (b : Nat) :
    l.take (min b l.length) = l.take b := by
  rcases Nat.le_total b l.length with h | h
  · rw [Nat.min_eq_left h]
  · rw [Nat.min_eq_right h, List.take_length, List.take_of_length_le h]

/-- For nonnegative start index and nonnegative width, the JavaScript slice
`A.slice(j, j + b)` is `take b` after `drop j`. -/
lemma jsSlice_nonneg {α : Type} (A : List α) (j b : Nat) :
    jsSlice A (j : Int) ((j : Int) + (b : Int)) = (A.drop j).take b := by
  unfold jsSlice
  rcases Nat.le_total j A.length with hj | hj
  · have hs : (if (j : Int) < 0 then max ((A.length : Int) + j) 0 else min (j : Int) A.length)
        = (j : Int) := by
      rw [if_neg (by omega)]
      omega
    have he : (if (j : Int) + b < 0 then max ((A.length : Int) + ((j : Int) + b)) 0
        else min ((j : Int) + b) A.length) = min ((j : Int) + b) A.length := by
      rw [if_neg (by omega)]
    simp only [hs, he]
    have h1 : ((j : Int)).toNat = j := by omega
    have h2 : (min ((j : Int) + b) (A.length : Int) - j).toNat = min b (A.length - j) := by
      omega
    rw [h1, h2]
    have h3 : (A.drop j).length = A.length - j := by
      rw [List.length_drop]
    rw [← h3, take_min_length]
  · have hs : (if (j : Int) < 0 then max ((A.length : Int) + j) 0 else min (j : Int) A.length)
        = (A.length : Int) := by
      rw [if_neg (by omega)]
      omega
    have he : (if (j : Int) + b < 0 then max ((A.length : Int) + ((j : Int) + b)) 0
        else min ((j : Int) + b) A.length) = (A.length : Int) := by
      rw [if_neg (by omega)]
      omega
    simp only [hs, he]
    have h1 : ((A.length : Int)).toNat = A.length := by omega
    rw [h1, List.drop_length, List.drop_eq_nil_of_le hj]
    simp

/-- With positive chunk size, the source loop (with fuel one more than the
remaining length) computes exactly the structural batch plan of the suffix
starting at loop index `j`. -/
lemma batchLoopFuel_agree {α : Type} (A : List α) (b : Nat) (hb : 1 ≤ b) :
    ∀ (fuel j : Nat), (A.drop j).length ≤ fuel →
      batchLoopFuel A (b : Int) (fuel + 1) (j : Int)
        = some (planBatchesAux b fuel (A.drop j)) := by
  intro fuel
  induction fuel with
  | zero =>
    intro j h
    have hj : A.length ≤ j := by
      rw [List.length_drop] at h
      omega
    have hnil : A.drop j = [] := List.drop_eq_nil_of_le hj
    rw [batchLoopFuel_succ, if_neg (by omega), hnil, planBatchesAux_zero]
  | succ fuel ih =>
    intro j h
    rcases Nat.lt_or_ge j A.length with hj | hj
    · rw [batchLoopFuel_succ, if_pos (by omega)]
      have hcast : ((j : Int) + (b : Int)) = ((j + b : Nat) : Int) := by push_cast; ring
      have hlen : (A.drop (j + b)).length ≤ fuel := by
        rw [List.length_drop]
        rw [List.length_drop] at h
        omega
      rw [hcast, ih (j + b) hlen, ← hcast, jsSlice_nonneg]
      have hcons : ∃ a as, A.drop j = a :: as := by
        rcases hA : A.drop j with _ | ⟨a, as⟩
        · exfalso
          have := List.drop_eq_nil_iff.mp hA
          omega
        · exact ⟨a, as, rfl⟩
      rcases hcons with ⟨a, as, hA⟩
      have hdd : (A.drop j).drop b = A.drop (j + b) := by
        rw [List.drop_drop, Nat.add_comm]
      rw [Option.map_some']
      rw [hA] at hdd ⊢
      rw [planBatchesAux_cons, ← hdd]
    · have hnil : A.drop j = [] := List.drop_eq_nil_of_le hj
      rw [batchLoopFuel_succ, if_neg (by omega), hnil, planBatchesAux_nil]

/-- With positive chunk size, the source loop run with fuel `A.length + 1`
terminates and returns exactly `planBatches A b`. -/
lemma batchLoopFuel_eq_planBatches {α : Type} (A : List α) (b : Nat) (hb : 1 ≤ b) :
    batchLoopFuel A (b : Int) (A.length + 1) 0 = some (planBatches A b) := by
  have h := batchLoopFuel_agree A b hb A.length 0 (by simp)
  simpa [planBatches] using h

lemma planBatchesAux_join {α : Type} (b : Nat) (hb : 1 ≤ b) :
    ∀ (fuel : Nat) (A : List α), A.length ≤ fuel → (planBatchesAux b fuel A).flatten = A := by
  intro fuel
  induction fuel with
  | zero =>
    intro A h
    have hA : A = [] := List.length_eq_zero.mp (by omega)
    subst hA
    rfl
  | succ fuel ih =>
    intro A h
    cases A with
    | nil => rfl
    | cons a as =>
      rw [planBatchesAux_cons, List.flatten_cons,
        ih ((a :: as).drop b) (by rw [List.length_drop]; simp only [List.length_cons] at h ⊢; omega),
        List.take_append_drop]

lemma planBatchesAux_chunk_le {α : Type} (b : Nat) :
    ∀ (fuel : Nat) (A : List α), ∀ c ∈ planBatchesAux b fuel A, c.length ≤ b := by
  intro fuel
  induction fuel with
  | zero =>
    intro A c hc
    rw [planBatchesAux_zero] at hc
    simp at hc
  | succ fuel ih =>
    intro A c hc
    cases A with
    | nil =>
      rw [planBatchesAux_nil] at hc
      simp at hc
    | cons a as =>
      rw [planBatchesAux_cons] at hc
      rcases List.mem_cons.mp hc with h | h
      · subst h
        exact List.length_take_le b (a :: as)
      · exact ih _ c h

lemma ceil_div_step (b m : Nat) (hb : 1 ≤ b) (hm : 1 ≤ m) :
    (m - b + b - 1) / b + 1 = (m + b - 1) / b := by
  have h1 : m + b - 1 = (m - 1) + b := by omega
  rw [h1, Nat.add_div_right _ (by omega)]
  rcases Nat.le_total b m with h | h
  · have h2 : m - b + b - 1 = m - 1 := by omega
    rw [h2]
  · have h2 : (m - b + b - 1) / b = 0 := Nat.div_eq_of_lt (by omega)
    have h3 : (m - 1) / b = 0 := Nat.div_eq_of_lt (by omega)
    rw [h2, h3]

lemma planBatchesAux_count {α : Type} (b : Nat) (hb : 1 ≤ b) :
    ∀ (fuel : Nat) (A : List α), A.length ≤ fuel →
      (planBatchesAux b fuel A).length = (A.length + b - 1) / b := by
  intro fuel
  induction fuel with
  | zero =>
    intro A h
    have hA : A = [] := List.length_eq_zero.mp (by omega)
    subst hA
    rw [planBatchesAux_zero]
    simp
    rw [Nat.div_eq_of_lt (by omega)]
  | succ fuel ih =>
    intro A h
    cases A with
    | nil =>
      rw [planBatchesAux_nil]
      simp
      rw [Nat.div_eq_of_lt (by omega)]
    | cons a as =>
      rw [planBatchesAux_cons, List.length_cons,
        ih ((a :: as).drop b) (by rw [List.length_drop]; simp only [List.length_cons] at h ⊢; omega),
        List.length_drop]
      exact ceil_div_step b (a :: as).length hb (by simp)

/-- Address model for the concrete scenario of `src/run.ts`: system program
id, the payer (provider) key, and the 50 generated recipients, as distinct
opaque identifiers. -/
def sysProgId : Nat := 0

def payerAddr : Nat := 1

/-- The 50 recipient addresses generated at `src/run.ts` lines 44-47. -/
def recipients50 : List Nat := (List.range 50).map (fun r => r + 2)

/-- `lookupAccounts = [SystemProgram.programId, provider.publicKey].concat(recipients)`
from `src/run.ts` line 97: 52 addresses. -/
def lookupAccounts52 : List Nat := [sysProgId, payerAddr] ++ recipients50

/-- The constant `const batch = 15` of `src/run.ts` line 98. -/
def batchSize : Nat := 15

/-- Network events emitted by the extension loop: submission of extension
transaction number `k`, and arrival of its confirmation. -/
inductive ExtEv where
  | sent (k : Nat)
  | confirmed (k : Nat)
deriving DecidableEq, Repr

/-- Trace of network events produced by the extension loop of `src/run.ts`
lines 99-109 after `n` iterations: iteration `k` submits extension
transaction `k` and then waits for its confirmation
(`await provider.sendAndConfirm(extend)`), so each iteration appends its
send event and then its confirmation event. -/
def extendTrace : Nat → List ExtEv
  | 0 => []
  | n + 1 => extendTrace n ++ [ExtEv.sent n, ExtEv.confirmed n]

lemma extendTrace_length : ∀ n, (extendTrace n).length = 2 * n := by
  intro n
  induction n with
  | zero => rfl
  | succ n ih =>
    rw [extendTrace, List.length_append, ih]
    simp
    omega

lemma extendTrace_getElem (n : Nat) : ∀ j : Nat,
    (extendTrace n)[j]? = if j < 2 * n then
      some (if j % 2 = 0 then ExtEv.sent (j / 2) else ExtEv.confirmed (j / 2))
    else none := by
  induction n with
  | zero =>
    intro j
    rw [if_neg (by omega)]
    rfl
  | succ n ih =>
    intro j
    rw [extendTrace]
    have h1 : (extendTrace n).length = 2 * n := extendTrace_length n
    by_cases hj : j < 2 * n
    · rw [List.getElem?_append_left (by omega), ih j, if_pos hj,
        if_pos (show j < 2 * (n + 1) by omega)]
    · rw [List.getElem?_append_right (by omega), h1]
      by_cases hj2 : j = 2 * n
      · subst hj2
        have hz : 2 * n - 2 * n = 0 := by omega
        rw [hz, if_pos (by omega)]
        have hm : 2 * n % 2 = 0 := by omega
        have hd : 2 * n / 2 = n := by omega
        rw [hm |> if_pos, hd]
        rfl
      · by_cases hj3 : j = 2 * n + 1
        · subst hj3
          have hz : 2 * n + 1 - 2 * n = 1 := by omega
          rw [hz, if_pos (by omega)]
          have hm : ¬ (2 * n + 1) % 2 = 0 := by omega
          have hd : (2 * n + 1) / 2 = n := by omega
          rw [if_neg hm, hd]
          rfl
        · have hge : 2 ≤ j - 2 * n := by omega
          rw [if_neg (by omega)]
          exact List.getElem?_eq_none (by simp; omega)

/-- C1: for every address sequence `A` (including the empty one) and every
chunk size `b ≥ 1`, the batch plan computed by the source's extension
batching loop yields chunks that concatenate to exactly `A` in order,
every chunk has length at most `b`, the number of chunks is
`ceil(len(A) / b)` (zero for empty `A`), and the loop itself terminates
with exactly this plan. -/
theorem C1_planBatches_correct {α : Type} (A : List α) (b : Nat) (hb : 1 ≤ b) :
    (planBatches A b).flatten = A ∧
    (∀ c ∈ planBatches A b, c.length ≤ b) ∧
    (planBatches A b).length = (A.length + b - 1) / b ∧
    batchLoopFuel A (b : Int) (A.length + 1) 0 = some (planBatches A b) :=
  ⟨planBatchesAux_join b hb A.length A (Nat.le_refl _),
   fun c hc => planBatchesAux_chunk_le b A.length A c hc,
   planBatchesAux_count b hb A.length A (Nat.le_refl _),
   batchLoopFuel_eq_planBatches A b hb⟩

/-- C1 witness: the general theorem evaluated at `A = [5, 6, 7]`, `b = 2`. -/
theorem C1_planBatches_correct_witness :
    1 ≤ 2 ∧
    ((planBatches ([5, 6, 7] : List Nat) 2).flatten = [5, 6, 7] ∧
     (∀ c ∈ planBatches ([5, 6, 7] : List Nat) 2, c.length ≤ 2) ∧
     (planBatches ([5, 6, 7] : List Nat) 2).length = (3 + 2 - 1) / 2 ∧
     batchLoopFuel ([5, 6, 7] : List Nat) ((2 : Nat) : Int) 4 0
       = some (planBatches [5, 6, 7] 2)) :=
  ⟨by decide, C1_planBatches_correct [5, 6, 7] 2 (by decide)⟩

/-- C2: on the concrete 52-address lookup list (system program, payer, then
the 50 recipients) with chunk size 15, the plan is four chunks of sizes
15, 15, 15, 7 in original order, concatenating back to the list, and the
extension loop performs exactly 4 iterations whose network trace is
send 0, confirm 0, send 1, confirm 1, send 2, confirm 2, send 3,
confirm 3 — each submission strictly after the previous confirmation. -/
theorem C2_concrete_batches :
    (planBatches lookupAccounts52 batchSize).map List.length = [15, 15, 15, 7] ∧
    (planBatches lookupAccounts52 batchSize).flatten = lookupAccounts52 ∧
    (planBatches lookupAccounts52 batchSize).length = 4 ∧
    extendTrace (planBatches lookupAccounts52 batchSize).length
      = [ExtEv.sent 0, ExtEv.confirmed 0, ExtEv.sent 1, ExtEv.confirmed 1,
         ExtEv.sent 2, ExtEv.confirmed 2, ExtEv.sent 3, ExtEv.confirmed 3] :=
  ⟨by decide, by decide, by decide, by decide⟩

/-- C3: the extension loop is strictly sequential.  In the trace of a run
over `n` chunks, the unique submission event of chunk `m` sits at position
`2 * m` and the unique confirmation event of chunk `m` at `2 * m + 1`; in
particular the submission of chunk `k + 1` (position `2 * k + 2`) occurs
strictly after the confirmation of chunk `k` (position `2 * k + 1`), so no
submission is ever issued before the previous one is confirmed and no two
submissions are concurrent. -/
theorem C3_sequential_extension (n k : Nat) (hk : k + 1 < n) :
    (extendTrace n)[2 * k + 1]? = some (ExtEv.confirmed k) ∧
    (extendTrace n)[2 * k + 2]? = some (ExtEv.sent (k + 1)) ∧
    (∀ j m, (extendTrace n)[j]? = some (ExtEv.sent m) → j = 2 * m) ∧
    (∀ j m, (extendTrace n)[j]? = some (ExtEv.confirmed m) → j = 2 * m + 1) := by
  refine ⟨?_, ?_, ?_, ?_⟩
  · rw [extendTrace_getElem n (2 * k + 1), if_pos (by omega)]
    have hm : ¬ (2 * k + 1) % 2 = 0 := by omega
    have hd : (2 * k + 1) / 2 = k := by omega
    rw [if_neg hm, hd]
  · rw [extendTrace_getElem n (2 * k + 2), if_pos (by omega)]
    have hm : (2 * k + 2) % 2 = 0 := by omega
    have hd : (2 * k + 2) / 2 = k + 1 := by omega
    rw [if_pos hm, hd]
  · intro j m h
    rw [extendTrace_getElem n j] at h
    split at h
    · split at h
      · simp only [Option.some.injEq, ExtEv.sent.injEq] at h
        omega
      · simp at h
    · simp at h
  · intro j m h
    rw [extendTrace_getElem n j] at h
    split at h
    · split at h
      · simp at h
      · simp only [Option.some.injEq, ExtEv.confirmed.injEq] at h
        omega
    · simp at h

/-- C3 witness: the sequencing theorem evaluated on the concrete 4-chunk
run at `k = 1`: confirmation of chunk 1 sits at trace position 3, and the
submission of chunk 2 at position 4, strictly after it. -/
theorem C3_sequential_extension_witness :
    (extendTrace 4)[3]? = some (ExtEv.confirmed 1) ∧
    (extendTrace 4)[4]? = some (ExtEv.sent 2) :=
  ⟨(C3_sequential_extension 4 1 (by decide)).1,
   (C3_sequential_extension 4 1 (by decide)).2.1⟩

/-- For any nonpositive step, the loop index never reaches the list length,
so the batching loop never exits: whatever fuel it is given runs out. -/
lemma batchLoopFuel_nonpos_none {α : Type} (A : List α) (b : Int) (hb : b ≤ 0) :
    ∀ (fuel : Nat) (i : Int), i < (A.length : Int) →
      batchLoopFuel A b fuel i = none := by
  intro fuel
  induction fuel with
  | zero =>
    intro i _
    rfl
  | succ fuel ih =>
    intro i hi
    rw [batchLoopFuel_succ, if_pos hi, ih (i + b) (by omega)]
    rfl

/-- C4 counterexample: the claim says the batching procedure fails with
`InvalidArgument` for `maxChunkSize ≤ 0` rather than looping.  The code has
no such check: on the nonempty input `[0]` with step `0` and with step
`-1`, the loop completes for no amount of fuel, i.e. it never terminates
and never produces any outcome (no error value, no result). -/
theorem C4_counterexample :
    (¬ ∃ fuel : Nat, (batchLoopFuel ([0] : List Nat) 0 fuel 0).isSome = true) ∧
    (¬ ∃ fuel : Nat, (batchLoopFuel ([0] : List Nat) (-1) fuel 0).isSome = true) := by
  constructor
  · rintro ⟨fuel, h⟩
    rw [batchLoopFuel_nonpos_none [0] 0 (by omega) fuel 0 (by decide)] at h
    simp at h
  · rintro ⟨fuel, h⟩
    rw [batchLoopFuel_nonpos_none [0] (-1) (by omega) fuel 0 (by decide)] at h
    simp at h

/-- C4 amended: for every nonpositive chunk step and every nonempty address
list, the extension batching loop of `src/run.ts` never terminates (it
exhausts any amount of fuel), rather than failing with `InvalidArgument`;
the script itself only ever runs the loop with the constant step 15. -/
theorem C4_loop_diverges {α : Type} (A : List α) (b : Int) (hb : b ≤ 0)
    (hA : A ≠ []) (fuel : Nat) :
    batchLoopFuel A b fuel 0 = none := by
  have hlen : 0 < A.length := List.length_pos.mpr hA
  exact batchLoopFuel_nonpos_none A b hb fuel 0 (by omega)

/-- C4 witness: the amended theorem evaluated at `A = [0]`, `b = 0`,
fuel 5. -/
theorem C4_loop_diverges_witness :
    ((0 : Int) ≤ 0 ∧ ([0] : List Nat) ≠ []) ∧
    batchLoopFuel ([0] : List Nat) 0 5 0 = none :=
  ⟨⟨by omega, by decide⟩, C4_loop_diverges [0] 0 (by omega) (by decide) 5⟩

/-- Error thrown by the activation check: `src/run.ts` line 124 throws
`"Lookup table is uninitialized"` when the fetched value is null. -/
inductive ActivationError where
  | tableUnavailable
deriving DecidableEq, Repr

/-- Embedding of the activation wait of `src/run.ts` lines 116-125:
`await sleep(2000)`, then
`(await provider.connection.getAddressLookupTable(lut)).value`, then the
null check that throws.  The fetch is the external RPC collaborator,
passed in as the value it returns (`none` models a `null` value).  The
first component is the number of milliseconds slept before fetching
(`setTimeout(resolve, ms)` waits the full `ms`); the second component is
the outcome. -/
def awaitActivation {T : Type} (delay : Nat) (fetched : Option T) :
    Nat × Except ActivationError T :=
  (delay,
    match fetched with
    | none => Except.error ActivationError.tableUnavailable
    | some t => Except.ok t)

/-- C6: `awaitActivation` sleeps at least the requested delay before the
fetch, fails with `TableUnavailable` exactly when the fetch returns no
table, and on a successful fetch returns the fetched table unchanged. -/
theorem C6_awaitActivation (T : Type) (delay : Nat) (fetched : Option T) :
    delay ≤ (awaitActivation delay fetched).1 ∧
    ((awaitActivation delay fetched).2 = Except.error ActivationError.tableUnavailable
      ↔ fetched = none) ∧
    (∀ t, fetched = some t → (awaitActivation delay fetched).2 = Except.ok t) := by
  refine ⟨Nat.le_refl _, ?_, ?_⟩
  · cases fetched <;> simp [awaitActivation]
  · intro t ht
    subst ht
    rfl

/-- C6 witness: the theorem evaluated at delay 2000 and a successful fetch
of the table value 42. -/
theorem C6_awaitActivation_witness :
    2000 ≤ (awaitActivation 2000 (some (42 : Nat))).1 ∧
    ((awaitActivation 2000 (some (42 : Nat))).2
        = Except.error ActivationError.tableUnavailable
      ↔ (some (42 : Nat) : Option Nat) = none) ∧
    (awaitActivation 2000 (some (42 : Nat))).2 = Except.ok 42 :=
  ⟨(C6_awaitActivation Nat 2000 (some 42)).1,
   (C6_awaitActivation Nat 2000 (some 42)).2.1,
   (C6_awaitActivation Nat 2000 (some 42)).2.2 42 rfl⟩

/-- Embedding of the extension loop of `src/run.ts` lines 99-109 run
against a network oracle `net`, starting at chunk index `k` with table
contents `tbl`: each iteration submits one chunk; if the network confirms
(`net k = none`) the chunk's addresses are appended to the table (the
ledger's extend semantics, per the spec's extendTable contract) and the
loop continues, and if the network rejects (`net k = some e`) the error
value `e` thrown by `sendAndConfirm` propagates unchanged — the script
has no catch and adds nothing to it — leaving the table as it was. -/
def extendRunAux {α ε : Type} (net : Nat → Option ε) :
    Nat → List α → List (List α) → List α × Option ε
  | _, tbl, [] => (tbl, none)
  | k, tbl, c :: cs =>
    match net k with
    | none => extendRunAux net (k + 1) (tbl ++ c) cs
    | some e => (tbl, some e)

/-- The full extension run over a chunk plan: starts at chunk 0 with an
empty (freshly created) table. -/
def extendRun {α ε : Type} (chunks : List (List α)) (net : Nat → Option ε) :
    List α × Option ε :=
  extendRunAux net 0 [] chunks

lemma extendRunAux_nil {α ε : Type} (net : Nat → Option ε) (k : Nat) (tbl : List α) :
    extendRunAux net k tbl [] = (tbl, none) := rfl

lemma extendRunAux_cons {α ε : Type} (net : Nat → Option ε) (k : Nat) (tbl : List α)
    (c : List α) (cs : List (List α)) :
    extendRunAux net k tbl (c :: cs) =
      match net k with
      | none => extendRunAux net (k + 1) (tbl ++ c) cs
      | some e => (tbl, some e) := rfl

lemma extendRunAux_fail {α ε : Type} (net : Nat → Option ε) (e : ε) :
    ∀ (cs : List (List α)) (j k : Nat) (tbl : List α),
      (∀ i, i < j → net (k + i) = none) → net (k + j) = some e → j < cs.length →
      extendRunAux net k tbl cs = (tbl ++ (cs.take j).flatten, some e) := by
  intro cs
  induction cs with
  | nil =>
    intro j k tbl _ _ hj
    simp at hj
  | cons c cs ih =>
    intro j k tbl hok hfail hj
    cases j with
    | zero =>
      have hk : net k = some e := by simpa using hfail
      rw [extendRunAux_cons, hk]
      simp
    | succ j =>
      have h0 : net k = none := by simpa using hok 0 (by omega)
      rw [extendRunAux_cons, h0]
      have hok2 : ∀ i, i < j → net (k + 1 + i) = none := by
        intro i hi
        have := hok (i + 1) (by omega)
        rwa [show k + (i + 1) = k + 1 + i by omega] at this
      have hfail2 : net (k + 1 + j) = some e := by
        rwa [show k + (j + 1) = k + 1 + j by omega] at hfail
      have hj2 : j < cs.length := by
        simp only [List.length_cons] at hj
        omega
      rw [ih j (k + 1) (tbl ++ c) hok2 hfail2 hj2, List.take_succ_cons,
        List.flatten_cons, List.append_assoc]

/-- The concrete extension plan of the script: the 52 lookup addresses
split in chunks of 15. -/
def chunks52 : List (List Nat) := planBatches lookupAccounts52 batchSize

/-- A network oracle that rejects exactly the submission with index `k0`,
with the fixed error value the SDK surfaces on a rejected submission;
every rejection carries the same value regardless of which chunk was being
submitted, as nothing in the script attaches the chunk index to it. -/
def rejectAt (k0 : Nat) : Nat → Option String :=
  fun k => if k = k0 then some "Transaction was not confirmed" else none

/-- C7 counterexample: with the 3rd of the 4 extension submissions
rejected, the table is indeed left with exactly chunks 1-2's 30 addresses
(first two conjuncts), but the error surfaced by the run when the 3rd
submission fails is identical to the error surfaced when the 1st
submission fails, even though the resulting table contents differ - so the
surfaced error does not identify the index of the first unapplied chunk,
refuting that part of the claim. -/
theorem C7_counterexample :
    (extendRun chunks52 (rejectAt 2)).1 = (chunks52.take 2).flatten ∧
    (extendRun chunks52 (rejectAt 2)).1.length = 30 ∧
    (extendRun chunks52 (rejectAt 2)).2 = (extendRun chunks52 (rejectAt 0)).2 ∧
    (extendRun chunks52 (rejectAt 0)).1 ≠ (extendRun chunks52 (rejectAt 2)).1 :=
  ⟨by decide, by decide, by decide, by decide⟩

/-- C7 amended: if the first `k` submissions are confirmed and submission
`k` (0-based) is rejected with error `e`, the run stops with the table
populated with exactly the addresses of chunks `0..k-1` (no part of chunk
`k` or later is applied) and the surfaced error is the network's error
value `e`, propagated unchanged; the script attaches neither the table
address nor the index of the first unapplied chunk to it. -/
theorem C7_partial_failure {α ε : Type} (chunks : List (List α))
    (net : Nat → Option ε) (e : ε) (k : Nat)
    (hok : ∀ i, i < k → net i = none) (hfail : net k = some e)
    (hk : k < chunks.length) :
    extendRun chunks net = ((chunks.take k).flatten, some e) := by
  have h := extendRunAux_fail net e chunks k 0 []
    (by intro i hi; simpa using hok i hi) (by simpa using hfail) hk
  simpa [extendRun] using h

/-- C7 witness: the amended theorem evaluated at the spec's scenario, the
3rd of the 4 concrete chunks rejected. -/
theorem C7_partial_failure_witness :
    ((∀ i, i < 2 → rejectAt 2 i = none) ∧
      rejectAt 2 2 = some "Transaction was not confirmed" ∧
      2 < chunks52.length) ∧
    extendRun chunks52 (rejectAt 2)
      = ((chunks52.take 2).flatten, some "Transaction was not confirmed") :=
  ⟨⟨by decide, by decide, by decide⟩,
   C7_partial_failure chunks52 (rejectAt 2) _ 2 (by decide) (by decide) (by decide)⟩

/-- Modelled from the spec: the wire format is the external ledger
protocol's, delegated entirely to the SDK (spec sections 1 and 6).  This
is the byte length of the protocol's compact-u16 length prefix: 1 byte
below 0x80, 2 bytes below 0x4000, 3 bytes otherwise. -/
def compactU16Len (n : Nat) : Nat :=
  if n < 128 then 1 else if n < 16384 then 2 else 3

/-- Modelled from the spec: serialized size of one compiled instruction
with `a` account index references and `d` bytes of data — a 1-byte
program-id index, the compact length plus one byte per account index, and
the compact length plus the data bytes. -/
def compiledIxLen (a d : Nat) : Nat :=
  1 + compactU16Len a + a + compactU16Len d + d

/-- Modelled from the spec: a compiled transfer instruction references 2
accounts (sender and recipient) and carries 12 data bytes (a 4-byte
instruction discriminator and an 8-byte little-endian lamport amount). -/
def transferIxLen : Nat := compiledIxLen 2 12

/-- Modelled from the spec: serialized size of a legacy (inline-address)
transaction with `s` signatures of 64 bytes, `n` inline account addresses
of 32 bytes, and `m` instructions of `ix` bytes: the signature array, the
3-byte header, the account key array, the 32-byte recent blockhash, and
the instruction array. -/
def legacyTxLen (s n m ix : Nat) : Nat :=
  (compactU16Len s + 64 * s) + 3 + (compactU16Len n + 32 * n) + 32
    + (compactU16Len m + m * ix)

/-- Modelled from the spec: serialized size of a v0 (versioned)
transaction with `s` signatures, `n` static (inline) addresses, `m`
instructions of `ix` bytes, and one address-table lookup resolving `w`
writable and `r` readonly addresses through the table: the legacy layout
plus a 1-byte version prefix and the table-lookup section (the table's
32-byte address and compact arrays of 1-byte table indices). -/
def v0TxLen (s n m ix w r : Nat) : Nat :=
  (compactU16Len s + 64 * s) + 1 + 3 + (compactU16Len n + 32 * n) + 32
    + (compactU16Len m + m * ix)
    + (compactU16Len 1 + 32 + compactU16Len w + w + compactU16Len r + r)

/-- The ledger's maximum serialized transaction size: the limit of 1232
bytes named in the comment at `src/run.ts` lines 74-75. -/
def maxTxBytes : Nat := 1232

/-- Error raised by legacy serialization when the payload exceeds the
limit: the "Transaction too large" failure described at `src/run.ts`
lines 70-75. -/
inductive SerializeError where
  | transactionTooLarge
deriving DecidableEq, Repr

/-- Modelled from the spec: the SDK's legacy serialization rejects a
transaction whose serialized size exceeds the 1232-byte ceiling with a
size-exceeded error, as the comment at `src/run.ts` lines 70-75 records. -/
def serializeLegacy (size : Nat) : Except SerializeError Nat :=
  if size > maxTxBytes then Except.error SerializeError.transactionTooLarge
  else Except.ok size

/-- Serialized size of the script's legacy transaction: 1 signature (the
payer), 52 inline addresses (payer, the 50 recipients and the system
program), and the 50 transfer instructions. -/
def legacyTx50Len : Nat := legacyTxLen 1 52 50 transferIxLen

/-- Serialized size of the script's v0 transaction: 1 signature, 2 static
addresses (the payer, who must sign, and the invoked system program,
which cannot be table-resolved), the 50 transfer instructions, and one
table lookup resolving the 50 recipients as writable table entries. -/
def v0Tx50Len : Nat := v0TxLen 1 2 50 transferIxLen 50 0

/-- C5: the legacy encoding of the 50-transfer scenario serializes to 2616
bytes, which exceeds the 1232-byte ceiling, so legacy serialization fails
with the size-exceeded error; the v0 encoding of the same instructions
against the lookup table serializes to 1102 bytes, strictly below the
ceiling (and strictly smaller than the legacy encoding). -/
theorem C5_size_comparison :
    legacyTx50Len = 2616 ∧
    maxTxBytes < legacyTx50Len ∧
    serializeLegacy legacyTx50Len = Except.error SerializeError.transactionTooLarge ∧
    v0Tx50Len = 1102 ∧
    v0Tx50Len < maxTxBytes ∧
    v0Tx50Len < legacyTx50Len :=
  ⟨by decide, by decide, by rfl, by decide, by decide, by decide⟩

/-- A transfer instruction as constructed at `src/run.ts` lines 51-57:
`SystemProgram.transfer({fromPubkey, toPubkey, lamports})`. -/
structure TransferIx (α : Type) where
  fromPubkey : α
  toPubkey : α
  lamports : Nat
deriving DecidableEq, Repr

/-- `LAMPORTS_PER_SOL` of the SDK. -/
def lamportsPerSol : Nat := 1000000000

/-- The 50 transfer instructions of `src/run.ts` lines 51-57: instruction
`i` transfers `4 * LAMPORTS_PER_SOL` lamports from the payer to
`recipients[i]`. -/
def mkTransferIxs {α : Type} (payer : α) (recipients : List α) : List (TransferIx α) :=
  recipients.map (fun r =>
    { fromPubkey := payer, toPubkey := r, lamports := 4 * lamportsPerSol })

/-- Inputs of `compileComposite`: the data passed to
`new TransactionMessage({payerKey, recentBlockhash, instructions})` and
`compileToV0Message([lookupTable])` at `src/run.ts` lines 128-133.
Addresses are abstract single byte values. -/
structure CompileInput where
  payer : Nat
  recentBlockhash : List Nat
  instructions : List (TransferIx Nat)
  tableAddr : Nat
  tableEntries : List Nat

/-- Static (inline) keys of the compiled v0 message: the payer, who must
sign, and the invoked system program, which cannot be table-resolved. -/
def staticKeys (inp : CompileInput) : List Nat := [inp.payer, sysProgId]

/-- Table entries actually loaded through the lookup: those referenced by
some instruction and not already static, in table order. -/
def loadedKeys (inp : CompileInput) : List Nat :=
  inp.tableEntries.filter (fun a =>
    !(staticKeys inp).contains a
      && inp.instructions.any (fun ix => ix.fromPubkey == a || ix.toPubkey == a))

/-- Combined key sequence indexed by compiled instructions: static keys
first, then table-loaded keys. -/
def allKeys (inp : CompileInput) : List Nat := staticKeys inp ++ loadedKeys inp

/-- Little-endian 8-byte encoding of a lamport amount. -/
def encodeU64 (n : Nat) : List Nat :=
  [n % 256, n / 256 % 256, n / 256 ^ 2 % 256, n / 256 ^ 3 % 256,
   n / 256 ^ 4 % 256, n / 256 ^ 5 % 256, n / 256 ^ 6 % 256, n / 256 ^ 7 % 256]

/-- One compiled transfer instruction: program-id index, account count,
the two account indices, data length, the 4-byte transfer discriminator
and the 8-byte lamport amount. -/
def compileIx (inp : CompileInput) (ix : TransferIx Nat) : List Nat :=
  [(allKeys inp).indexOf sysProgId, 2,
   (allKeys inp).indexOf ix.fromPubkey, (allKeys inp).indexOf ix.toPubkey,
   12, 2, 0, 0, 0] ++ encodeU64 ix.lamports

/-- Modelled from the spec: `compileComposite` builds the versioned
envelope — instructions retained verbatim, every referenced address
resolved either as a static index or as a table index — and serializes it
as a pure function of the operation, tables, payer and blockhash: version
prefix, header, static keys, blockhash, compiled instructions, then the
table-lookup section (table address, loaded-key count and the loaded
keys' indices within the table). -/
def compileComposite (inp : CompileInput) : List Nat :=
  [128, 1, 0, 1, (staticKeys inp).length] ++ staticKeys inp
    ++ inp.recentBlockhash
    ++ [inp.instructions.length] ++ (inp.instructions.map (compileIx inp)).flatten
    ++ [1, inp.tableAddr, (loadedKeys inp).length]
    ++ (loadedKeys inp).map (fun a => inp.tableEntries.indexOf a)

/-- C8: `compileComposite` is deterministic — identical inputs (same
operation, tables, payer and recent blockhash) yield byte-identical
serialized output. -/
theorem C8_compile_deterministic (x y : CompileInput) (h : x = y) :
    compileComposite x = compileComposite y := by
  rw [h]

/-- A concrete compile input: one transfer, a three-entry table. -/
def sampleInput : CompileInput :=
  { payer := 1, recentBlockhash := [9, 9], instructions := [⟨1, 2, 4 * lamportsPerSol⟩],
    tableAddr := 99, tableEntries := [0, 1, 2] }

/-- C8 witness: the determinism theorem evaluated at the concrete sample
input. -/
theorem C8_compile_deterministic_witness :
    sampleInput = sampleInput ∧ compileComposite sampleInput = compileComposite sampleInput :=
  ⟨rfl, C8_compile_deterministic sampleInput sampleInput rfl⟩

/-- Modelled from the spec: the ledger's transfer semantics executed by
the network collaborator — a confirmed transfer of `v` lamports decreases
the sender's balance by `v` and increases the recipient's by `v`.
Balances are integers; funding is assumed, since the claim concerns a
successful, finalized run. -/
def applyTransfer {α : Type} [DecidableEq α] (bal : α → Int) (t : TransferIx α) : α → Int :=
  fun a =>
    bal a - (if a = t.fromPubkey then (t.lamports : Int) else 0)
          + (if a = t.toPubkey then (t.lamports : Int) else 0)

/-- Balances after the network executes the instruction list in order. -/
def runTransfers {α : Type} [DecidableEq α] (bal : α → Int) (ixs : List (TransferIx α)) :
    α → Int :=
  ixs.foldl applyTransfer bal

lemma runTransfers_balance {α : Type} [DecidableEq α] (payer r : α) (hrp : r ≠ payer) :
    ∀ (rs : List α) (bal : α → Int),
      runTransfers bal (mkTransferIxs payer rs) r
        = bal r + (4 * lamportsPerSol : Int) * (rs.count r : Int) := by
  intro rs
  induction rs with
  | nil =>
    intro bal
    simp [runTransfers, mkTransferIxs]
  | cons r0 rs ih =>
    intro bal
    have ih2 := ih (applyTransfer bal ⟨payer, r0, 4 * lamportsPerSol⟩)
    simp only [runTransfers, mkTransferIxs, List.map_cons, List.foldl_cons] at ih2 ⊢
    rw [ih2]
    by_cases hr : r = r0
    · subst hr
      rw [List.count_cons_self]
      simp only [applyTransfer, if_neg hrp, if_pos rfl]
      push_cast
      ring
    · rw [List.count_cons_of_ne hr]
      simp only [applyTransfer, if_neg hrp, if_neg hr]
      ring

/-- C9: instruction `i` of the built instruction list transfers exactly
`4 * LAMPORTS_PER_SOL` from the payer to `recipients[i]`; consequently,
after the network executes the confirmed transaction, every recipient
(distinct from each other and from the payer, with nonnegative starting
balance) holds at least `4 * LAMPORTS_PER_SOL`, so the script's final
per-recipient assertion holds on a successful run. -/
theorem C9_recipient_balances {α : Type} [DecidableEq α] (payer : α)
    (recipients : List α) (bal : α → Int) (hnd : recipients.Nodup)
    (hp : payer ∉ recipients) (hnn : ∀ r ∈ recipients, 0 ≤ bal r) :
    (∀ i : Nat, (mkTransferIxs payer recipients)[i]?
        = (recipients[i]?).map (fun r =>
            { fromPubkey := payer, toPubkey := r, lamports := 4 * lamportsPerSol })) ∧
    (∀ r ∈ recipients,
      (4 * lamportsPerSol : Int) ≤ runTransfers bal (mkTransferIxs payer recipients) r) := by
  constructor
  · intro i
    simp only [mkTransferIxs, List.getElem?_map]
  · intro r hr
    have hrp : r ≠ payer := fun h => hp (h ▸ hr)
    rw [runTransfers_balance payer r hrp recipients bal,
      List.count_eq_one_of_mem hnd hr]
    have h0 := hnn r hr
    omega

/-- C9 witness: the theorem evaluated on the concrete payer, the 50
distinct concrete recipients and zero starting balances, specialized to
the recipient with address 2 (the first recipient). -/
theorem C9_recipient_balances_witness :
    (recipients50.Nodup ∧ payerAddr ∉ recipients50 ∧ (2 : Nat) ∈ recipients50) ∧
    (4 * lamportsPerSol : Int)
      ≤ runTransfers (fun _ => 0) (mkTransferIxs payerAddr recipients50) 2 :=
  ⟨⟨by decide, by decide, by decide⟩,
   (C9_recipient_balances payerAddr recipients50 (fun _ => 0) (by decide) (by decide)
      (fun _ _ => Int.le_refl 0)).2 2 (by decide)⟩

/-- The airdrop request of `src/run.ts` lines 36-41: the literal is
`300 * LAMPORTS_PER_SOL` (the adjacent comment says "200 sol",
contradicting the literal, just as the comment at line 43 says
"20 lamports" while the transfer literal is `4 * LAMPORTS_PER_SOL`). -/
def airdropLamports : Nat := 300 * lamportsPerSol

/-- Total lamports moved by the script's 50 transfer instructions. -/
def totalTransferLamports : Nat :=
  ((mkTransferIxs payerAddr recipients50).map TransferIx.lamports).sum

/-- C10: the airdrop requests exactly 300 SOL while the 50 transfer
instructions move a total of 50 x 4 = 200 SOL, strictly less than the
airdropped amount, so the funds requested up front cover all transfers. -/
theorem C10_airdrop_covers_transfers :
    airdropLamports = 300 * lamportsPerSol ∧
    totalTransferLamports = 200 * lamportsPerSol ∧
    totalTransferLamports < airdropLamports :=
  ⟨rfl, by decide, by decide⟩

end LUTs
